import Mathlib

/-!
Verification of the Recreate photomosaic compositor (`src/main.rs`).

The Rust source is shallowly embedded below: machine integers (`u32`, `u16`,
usize) are modelled as `Nat` (no reachable overflow exists in the embedded
paths, see the per-definition comments), Rust panics are modelled by a
dedicated `panic` constructor, and `anyhow::Result` errors by an `err`
constructor.  `f32` scalar arithmetic inside the pixel-blend path is modelled
over `ℚ`; every theorem below that touches that path either uses scalars at
which the `f32` computation is exact (0, 1, 1/2) or states a fact that does
not depend on the rounding of the scaled RGB channels.
-/

namespace Recreate

/-! ## Definitions

### `next_divisor` (src/main.rs lines 404-420) -/

/-- Result of `next_divisor`: `err` models the `anyhow!` error returned when
`start > n`, `panic` models the Rust panic raised by the remainder `n % 0`
when `start = 0`, and `ok c` models `Ok(c)`. -/
inductive NdResult where
  | err : NdResult
  | panic : NdResult
  | ok : Nat → NdResult
deriving DecidableEq, Repr

/-- The `for i in (start + 1)..=n` loop body of `next_divisor`: scan the
`cnt` integers `lo, lo + 1, ...` returning the first that divides `n`. -/
def scanRange (n : Nat) : Nat → Nat → Option Nat
  | _, 0 => none
  | lo, cnt + 1 => if n % lo = 0 then some lo else scanRange n (lo + 1) cnt

/-- `fn next_divisor(n: u32, start: u32) -> Result<u32>`.  The trailing
`Ok(start)` after the loop is the source's (unreachable) fallback. -/
def next_divisor (n start : Nat) : NdResult :=
  if start > n then .err
  else if start = 0 then .panic
  else if n % start = 0 then .ok start
  else
    match scanRange n (start + 1) (n - start) with
    | some i => .ok i
    | none => .ok start

/-! ### `divide_image_into_grid` (src/main.rs lines 367-402) -/

/-- One grid cell's rectangle in pixel coordinates: the crop rectangle
`image.crop(x_start, y_start, cell_width, cell_height)` of the source. -/
structure CellRect where
  x : Nat
  y : Nat
  width : Nat
  height : Nat
deriving DecidableEq, Repr

/-- Pixel membership in a cell rectangle. -/
def CellRect.contains (rect : CellRect) (px py : Nat) : Prop :=
  rect.x ≤ px ∧ px < rect.x + rect.width ∧ rect.y ≤ py ∧ py < rect.y + rect.height

instance (rect : CellRect) (px py : Nat) : Decidable (rect.contains px py) := by
  unfold CellRect.contains
  infer_instance

/-- `fn divide_image_into_grid(image, grid_width, grid_height)`: the nested
`for y { for x { ... } }` loops pushing one crop rectangle per cell, in
row-major order (row 0 left to right, then row 1, ...).  `cell_width` and
`cell_height` are the integer divisions of the source; under the divisibility
hypotheses of the theorems below they are exact. -/
def divide_image_into_grid (imgW imgH gridW gridH : Nat) : List CellRect :=
  let cell_width := imgW / gridW
  let cell_height := imgH / gridH
  (List.range gridH).flatMap (fun y =>
    (List.range gridW).map (fun x =>
      ⟨x * cell_width, y * cell_height, cell_width, cell_height⟩))

/-! ### `RgbaWrapper` blend arithmetic (src/main.rs lines 19-66, 297-305) -/

/-- An 8-bit RGBA pixel.  Channels are `Nat`s; validity (each channel at most
255) is a hypothesis of the theorems that need it. -/
structure RgbaU8 where
  r : Nat
  g : Nat
  b : Nat
  a : Nat
deriving DecidableEq, Repr

/-- Every channel fits in 8 bits. -/
def RgbaU8.valid (p : RgbaU8) : Prop :=
  p.r ≤ 255 ∧ p.g ≤ 255 ∧ p.b ≤ 255 ∧ p.a ≤ 255

instance (p : RgbaU8) : Decidable p.valid := by
  unfold RgbaU8.valid
  infer_instance

/-- One colour channel of `impl Mul<f32> for RgbaWrapper`:
`(r as f32 * scalar).min(255.0).max(0.0) as u8`.  The `f32` product is
modelled as the exact rational product (the scalars used by the theorems
below are 0, 1 and 1/2, at which the `f32` product of an 8-bit channel is
exact); the saturating `as u8` cast of the clamped non-negative value is its
floor. -/
def scaleChannel (c : Nat) (scalar : Rat) : Nat :=
  (⌊max (min ((c : Rat) * scalar) 255) 0⌋).toNat

/-- `impl Mul<f32> for RgbaWrapper` (lines 30-46): scales R, G and B and
keeps the alpha channel unchanged. -/
def rgbaMul (p : RgbaU8) (scalar : Rat) : RgbaU8 :=
  ⟨scaleChannel p.r scalar, scaleChannel p.g scalar, scaleChannel p.b scalar, p.a⟩

/-- One colour channel of `impl Add for RgbaWrapper`:
`(c1 as u16 + c2 as u16).min(255) as u8` (the `u16` sum of two bytes cannot
wrap, so `Nat` addition is exact). -/
def addChannel (c1 c2 : Nat) : Nat :=
  min (c1 + c2) 255

/-- `impl Add for RgbaWrapper` (lines 49-66): saturating add on all four
channels, the alpha channel included. -/
def rgbaAdd (p q : RgbaU8) : RgbaU8 :=
  ⟨addChannel p.r q.r, addChannel p.g q.g, addChannel p.b q.b, addChannel p.a q.a⟩

/-- The per-pixel blend of `Recreate::collage` (line 300):
`RgbaWrapper(pixel) * (1.0 - alpha) + RgbaWrapper(dom_color) * alpha`. -/
def blend (pixel dom : RgbaU8) (alpha : Rat) : RgbaU8 :=
  rgbaAdd (rgbaMul pixel (1 - alpha)) (rgbaMul dom alpha)

/-- The value of one output RGB channel of `blend`, as a function of the two
corresponding input channels and the global blend factor only. -/
def blendChannel (c dc : Nat) (alpha : Rat) : Nat :=
  addChannel (scaleChannel c (1 - alpha)) (scaleChannel dc alpha)

/-! ### Outcomes of fallible, possibly panicking computations -/

/-- Rust panics reachable in `Recreate::collage` and its callees. -/
inductive PanicReason where
  | remZero : PanicReason
  | genRangeEmptyRange : PanicReason
  | asRgb8UnwrapNone : PanicReason
  | dominantUnwrapNone : PanicReason
  | pathIndexUnderflow : PanicReason
deriving DecidableEq, Repr

/-- The only `anyhow` error constructed inside the embedded part of
`collage`: `next_divisor`'s "Grid value should be less that {n}". -/
inductive CollageError where
  | gridValueTooLarge : CollageError
deriving DecidableEq, Repr

/-- Outcome of a fallible, possibly panicking computation. -/
inductive Outcome (α : Type) where
  | ok : α → Outcome α
  | err : CollageError → Outcome α
  | panic : PanicReason → Outcome α
deriving DecidableEq, Repr

/-! ### Dominant-colour extraction (src/main.rs lines 422-461) -/

/-- A colour in the Lab space of the `palette` crate (three `f32`
components, modelled as rationals; their numeric values play no role in the
claims settled here). -/
structure LabColor where
  l : Rat
  a : Rat
  b : Rat
deriving DecidableEq, Repr

/-- The state of one k-means run of the `kmeans_colors` crate: its
convergence score, its centroids and the per-pixel centroid indices. -/
structure KmeansState where
  score : Rat
  centroids : List LabColor
  indices : List Nat
deriving DecidableEq, Repr

/-- The exact value of `f32::MAX`, namely `(2 - 2 ^ (-23)) * 2 ^ 127`. -/
def f32Max : Rat := 2 ^ 128 - 2 ^ 104

/-- Modelled from the `kmeans_colors` crate: `Kmeans::new()` initialises the
best-so-far placeholder with `score: f32::MAX` and empty `centroids` and
`indices`. -/
def kmeansNew : KmeansState := ⟨f32Max, [], []⟩

/-- The best-of-three selection loop of `calc_dominant_color` (lines
446-452): `for i in 0..3 { run_result = get_kmeans(8, 20, 5.0, false, &lab,
30 + i); if run_result.score < result.score { result = run_result } }`.
`getk seed` abstracts `get_kmeans(8, 20, 5.0, false, &lab, seed)` — the
k-means run itself is `f32` clustering in the external crate, so it enters
the model as an opaque function of the seed (the pixel buffer `lab` is fixed
for the cell under consideration). -/
def bestOfRuns (getk : Nat → KmeansState) : KmeansState :=
  (List.range 3).foldl
    (fun result i =>
      let run_result := getk (30 + i)
      if run_result.score < result.score then run_result else result)
    kmeansNew

/-- Modelled from the `kmeans_colors` crate: `Lab::sort_indexed_colors`
pairs each centroid with the number of pixels assigned to it (the crate
stores a percentage; only its ordering matters here, so the raw count is
kept).  The result is empty exactly when there are no centroids. -/
def sort_indexed_colors (centroids : List LabColor) (indices : List Nat) :
    List (Nat × LabColor) :=
  (centroids.zip (List.range centroids.length)).map
    (fun p => (indices.count p.2, p.1))

/-- Modelled from the `kmeans_colors` crate: `Lab::get_dominant_color` takes
the entry with the largest membership, `None` when the list is empty. -/
def get_dominant_color (res : List (Nat × LabColor)) : Option LabColor :=
  (res.foldl
    (fun best p =>
      match best with
      | none => some p
      | some q => if q.1 < p.1 then some p else some q)
    none).map Prod.snd

/-- `fn calc_dominant_color(img_vec: Vec<u8>) -> Lab` (lines 438-461): runs
the best-of-three selection and ends in `dominant_color.unwrap()`, which
panics when `get_dominant_color` returns `None` — the function has no error
return. -/
def calc_dominant_color (getk : Nat → KmeansState) : Outcome LabColor :=
  let result := bestOfRuns getk
  let res := sort_indexed_colors result.centroids result.indices
  match get_dominant_color res with
  | some c => Outcome.ok c
  | none => Outcome.panic PanicReason.dominantUnwrapNone

/-- `fn lab_to_rgba_u8(lab: Lab) -> Rgba<u8>` (lines 422-436).  The Lab →
XYZ → sRGB float conversion of the `palette` crate is abstracted as the
parameter `srgbOfLab`; the clamp `(v * 255.0).clamp(0.0, 255.0) as u8` and
the fixed full-opacity alpha `Rgba([r, g, b, 255])` are taken from the
source. -/
def lab_to_rgba_u8 (srgbOfLab : LabColor → Rat × Rat × Rat) (lab : LabColor) :
    RgbaU8 :=
  let rgb := srgbOfLab lab
  ⟨(⌊min (max (rgb.1 * 255) 0) 255⌋).toNat,
   (⌊min (max (rgb.2.1 * 255) 0) 255⌋).toNat,
   (⌊min (max (rgb.2.2 * 255) 0) 255⌋).toNat,
   255⟩

/-! ### The `Recreate::collage` pipeline skeleton (src/main.rs lines 205-328)

The control flow of `collage` after the reference image has been decoded and
optionally resized/scaled (`imgW`, `imgH` are the dimensions at the time the
grid is negotiated; decoding and the geometric preprocessing are external
image I/O with no bearing on the claims settled here, and the final
`ImageBuffer::save` call is modelled as succeeding whenever it is reached
with a well-formed output directory). -/

/-- The inputs of one `Recreate::collage` invocation that the embedded
control flow depends on:
* `pathParts` — the components of `path.split("/")` (always non-empty);
* `imgW`, `imgH` — `img.dimensions()` after the optional resize/scale;
* `gridCols`, `gridRows` — the requested grid counts;
* `poolLen` — `self.img_list.read().unwrap().len()`;
* `refIsRgb8` — whether the decoded reference is the `Rgb8` variant, so
  whether `portion.as_rgb8()` is `Some` (cropping and `resize_exact`
  preserve the variant);
* `getk` — the per-seed k-means result for a cell's pixel buffer (the model
  treats the cells of one image uniformly; the claims settled on this
  skeleton do not depend on per-cell variation). -/
structure CollageInput where
  pathParts : List String
  imgW : Nat
  imgH : Nat
  gridCols : Nat
  gridRows : Nat
  poolLen : Nat
  refIsRgb8 : Bool
  getk : Nat → KmeansState

/-- The body of the `par_iter().for_each` closure (lines 273-309) for one
grid portion, up to the pixel writes: `rng.gen_range(0..img_list.len())`
panics on an empty range when the pool is empty; then
`portion.as_rgb8().unwrap()` panics when the reference is not `Rgb8`; then
`calc_dominant_color` may panic; afterwards the blend-and-write loop runs
(its pixel arithmetic is verified separately on `blend`). -/
def processCell (inp : CollageInput) : Outcome Unit :=
  if inp.poolLen = 0 then .panic .genRangeEmptyRange
  else if inp.refIsRgb8 = false then .panic .asRgb8UnwrapNone
  else
    match calc_dominant_color inp.getk with
    | .ok _ => .ok ()
    | .err e => .err e
    | .panic reason => .panic reason

/-- The parallel fan-out over the grid portions.  Rayon propagates the first
worker panic after the pool drains; since every cell of this skeleton
behaves identically, processing the list sequentially and stopping at the
first non-`ok` outcome is observationally the same. -/
def processCells : List CellRect → CollageInput → Outcome Unit
  | [], _ => .ok ()
  | _ :: rest, inp =>
    match processCell inp with
    | .ok _ => processCells rest inp
    | .err e => .err e
    | .panic reason => .panic reason

/-- `Recreate::collage` (lines 205-328) from grid negotiation onwards:
`next_divisor` on the width then on the height (each `?`-propagated), the
grid division, the per-cell fan-out, and finally
`split_path[split_path.len() - 2]` — which panics by index underflow when
the split path has fewer than two components — before the buffer is saved. -/
def collage (inp : CollageInput) : Outcome Unit :=
  match next_divisor inp.imgW inp.gridCols with
  | NdResult.err => .err .gridValueTooLarge
  | NdResult.panic => .panic .remZero
  | NdResult.ok grid_cols =>
    match next_divisor inp.imgH inp.gridRows with
    | NdResult.err => .err .gridValueTooLarge
    | NdResult.panic => .panic .remZero
    | NdResult.ok grid_rows =>
      match processCells
          (divide_image_into_grid inp.imgW inp.imgH grid_cols grid_rows) inp with
      | .ok _ =>
        if 2 ≤ inp.pathParts.length then .ok () else .panic .pathIndexUnderflow
      | .err e => .err e
      | .panic reason => .panic reason

/-! ## Helper lemmas -/

theorem scanRange_eq_some (n : Nat) :
    ∀ cnt lo i, scanRange n lo cnt = some i →
      lo ≤ i ∧ i < lo + cnt ∧ n % i = 0 ∧ ∀ m, lo ≤ m → m < i → n % m ≠ 0 := by
  intro cnt
  induction cnt with
  | zero =>
    intro lo i h
    simp [scanRange] at h
  | succ c ih =>
    intro lo i h
    by_cases hd : n % lo = 0
    · simp only [scanRange, hd, if_pos, Option.some.injEq] at h
      subst h
      exact ⟨Nat.le_refl _, by omega, hd, fun m h1 h2 => by omega⟩
    · simp only [scanRange, hd, if_neg, if_false] at h
      obtain ⟨h1, h2, h3, h4⟩ := ih (lo + 1) i h
      refine ⟨by omega, by omega, h3, ?_⟩
      intro m hm1 hm2
      rcases Nat.eq_or_lt_of_le hm1 with he | hl
      · rw [← he]; exact hd
      · exact h4 m hl hm2

theorem scanRange_isSome (n : Nat) :
    ∀ cnt lo j, lo ≤ j → j < lo + cnt → n % j = 0 →
      ∃ i, scanRange n lo cnt = some i := by
  intro cnt
  induction cnt with
  | zero =>
    intro lo j h1 h2 _
    omega
  | succ c ih =>
    intro lo j h1 h2 h3
    by_cases hd : n % lo = 0
    · exact ⟨lo, by simp [scanRange, hd]⟩
    · have hj : lo + 1 ≤ j := by
        rcases Nat.eq_or_lt_of_le h1 with he | hl
        · exact absurd (he ▸ h3) hd
        · exact hl
      obtain ⟨i, hi⟩ := ih (lo + 1) j hj (by omega) h3
      refine ⟨i, ?_⟩
      simp only [scanRange, hd, if_neg, if_false]
      exact hi

/-- Full functional specification of `next_divisor` on the non-error domain:
for `1 ≤ r ≤ n` it returns `ok c` where `c` is the least divisor of `n`
that is at least `r`. -/
theorem next_divisor_spec (n r : Nat) (hr : 1 ≤ r) (hrn : r ≤ n) :
    ∃ c, next_divisor n r = NdResult.ok c ∧ r ≤ c ∧ c ≤ n ∧ n % c = 0 ∧
      ∀ m, r ≤ m → n % m = 0 → c ≤ m := by
  by_cases hd : n % r = 0
  · refine ⟨r, ?_, Nat.le_refl _, hrn, hd, fun m hm _ => hm⟩
    have hr0 : ¬ r = 0 := by omega
    simp [next_divisor, Nat.not_lt.mpr hrn, hr0, hd]
  · have hrn' : r < n := by
      rcases Nat.eq_or_lt_of_le hrn with he | hl
      · exact absurd (he ▸ Nat.mod_self n) (he ▸ hd)
      · exact hl
    obtain ⟨i, hi⟩ := scanRange_isSome n (n - r) (r + 1) n (by omega) (by omega) (Nat.mod_self n)
    obtain ⟨h1, h2, h3, h4⟩ := scanRange_eq_some n (n - r) (r + 1) i hi
    refine ⟨i, ?_, by omega, by omega, h3, ?_⟩
    · simp only [next_divisor, gt_iff_lt, Nat.not_lt.mpr hrn, if_false, hd, if_neg, hi]
      have hr0 : ¬ r = 0 := by omega
      simp [hr0]
    · intro m hm hmdvd
      rcases Nat.eq_or_lt_of_le hm with he | hl
      · exact absurd (he ▸ hmdvd) hd
      · by_contra hc
        exact h4 m hl (by omega) hmdvd

/-- Any `ok` result of `next_divisor` is positive (the zero start panics,
and every `ok` branch returns a value that is at least `start ≥ 1`). -/
theorem next_divisor_ok_pos (n r c : Nat) (h : next_divisor n r = NdResult.ok c) :
    1 ≤ c := by
  unfold next_divisor at h
  by_cases h1 : r > n
  · simp [h1] at h
  · by_cases h2 : r = 0
    · simp [h1, h2] at h
    · by_cases h3 : n % r = 0
      · simp [h1, h2, h3] at h
        omega
      · simp only [h1, if_false, h2, h3, if_neg] at h
        cases hs : scanRange n (r + 1) (n - r) with
        | none => rw [hs] at h; simp at h; omega
        | some i =>
          rw [hs] at h
          simp at h
          obtain ⟨hi, _⟩ := scanRange_eq_some n (n - r) (r + 1) i hs
          omega

theorem range_flatMap_range_map {α : Type} (m n : Nat) (g : Nat → Nat → α) :
    (List.range m).flatMap (fun y => (List.range n).map (fun x => g y x)) =
      (List.range (m * n)).map (fun i => g (i / n) (i % n)) := by
  induction m with
  | zero => simp
  | succ m ih =>
    rw [List.range_succ, List.flatMap_append, ih, Nat.succ_mul, List.range_add,
      List.map_append]
    congr 1
    simp only [List.flatMap_cons, List.flatMap_nil, List.append_nil, List.map_map]
    apply List.map_congr_left
    intro x hx
    rw [List.mem_range] at hx
    have h1 : (m * n + x) / n = m := by
      rw [Nat.mul_comm m n, Nat.mul_add_div (by omega), Nat.div_eq_of_lt hx, Nat.add_zero]
    have h2 : (m * n + x) % n = x := by
      rw [Nat.mul_comm m n, Nat.mul_add_mod, Nat.mod_eq_of_lt hx]
    simp [Function.comp, h1, h2]

/-- The nested loops produce, at flat index `i`, the rectangle whose origin
is `((i % cols) * cellW, (i / cols) * cellH)`. -/
theorem divide_image_into_grid_eq_map (imgW imgH gridW gridH : Nat) :
    divide_image_into_grid imgW imgH gridW gridH =
      (List.range (gridH * gridW)).map (fun i =>
        ⟨(i % gridW) * (imgW / gridW), (i / gridW) * (imgH / gridH),
          imgW / gridW, imgH / gridH⟩) := by
  unfold divide_image_into_grid
  exact range_flatMap_range_map gridH gridW _

theorem div_eq_of_between (q k n : Nat) (hk : 0 < k) (h1 : q * k ≤ n)
    (h2 : n < q * k + k) : n / k = q := by
  have ha : q ≤ n / k := (Nat.le_div_iff_mul_le hk).mpr h1
  have hb : n / k < q + 1 := (Nat.div_lt_iff_lt_mul hk).mpr (by rw [Nat.succ_mul]; omega)
  omega

theorem div_eq_of_between' (q k v : Nat) (h1 : q * k ≤ v) (h2 : v < q * k + k) :
    v / k = q :=
  div_eq_of_between q k v (by omega) h1 h2

theorem between_iff_div_eq (q k v : Nat) (hk : 0 < k) :
    q * k ≤ v ∧ v < q * k + k ↔ v / k = q := by
  have hd := Nat.div_add_mod v k
  have hm : v % k < k := Nat.mod_lt v hk
  constructor
  · rintro ⟨h1, h2⟩
    exact div_eq_of_between q k v hk h1 h2
  · intro h
    have hc : q * k = k * q := Nat.mul_comm q k
    rw [h] at hd
    omega

/-! ## Claim C1 -/

/-- Claim C1 (amended): for every image dimension `W ≥ 1` and requested count
`r ≥ 1`, if `r ≤ W` then `next_divisor W r` returns `ok c` where `c` is the
smallest integer with `c ≥ r` and `W % c = 0` (`r` itself when `r` already
divides `W`, and `W` when `r = W`); if `r > W` it fails with the invalid-grid
error.  In particular `next_divisor 100 7 = ok 10` and
`next_divisor 100 10 = ok 10`.  (The unamended claim also admits `r = 0`,
where the code panics on `W % 0`; see the counterexample.) -/
theorem c1_next_divisor_contract (W r : Nat) (hW : 1 ≤ W) (hr : 1 ≤ r) :
    (r ≤ W → ∃ c, next_divisor W r = NdResult.ok c ∧ r ≤ c ∧ W % c = 0 ∧
        ∀ m, r ≤ m → W % m = 0 → c ≤ m) ∧
    (W < r → next_divisor W r = NdResult.err) ∧
    (W % r = 0 → r ≤ W → next_divisor W r = NdResult.ok r) ∧
    (next_divisor W W = NdResult.ok W) ∧
    next_divisor 100 7 = NdResult.ok 10 ∧
    next_divisor 100 10 = NdResult.ok 10 := by
  refine ⟨?_, ?_, ?_, ?_, by decide, by decide⟩
  · intro hrW
    obtain ⟨c, hc, h1, _, h3, h4⟩ := next_divisor_spec W r hr hrW
    exact ⟨c, hc, h1, h3, h4⟩
  · intro hlt
    simp [next_divisor, hlt]
  · intro hdvd hrW
    have hr0 : ¬ r = 0 := by omega
    simp [next_divisor, Nat.not_lt.mpr hrW, hr0, hdvd]
  · have hW0 : ¬ W = 0 := by omega
    simp [next_divisor, hW0, Nat.mod_self]

/-- Witness for C1 at `W = 100`, `r = 7`. -/
theorem c1_witness :
    (7 ≤ 100 → ∃ c, next_divisor 100 7 = NdResult.ok c ∧ 7 ≤ c ∧ 100 % c = 0 ∧
        ∀ m, 7 ≤ m → 100 % m = 0 → c ≤ m) ∧
    (100 < 7 → next_divisor 100 7 = NdResult.err) ∧
    (100 % 7 = 0 → 7 ≤ 100 → next_divisor 100 7 = NdResult.ok 7) ∧
    (next_divisor 100 100 = NdResult.ok 100) ∧
    next_divisor 100 7 = NdResult.ok 10 ∧
    next_divisor 100 10 = NdResult.ok 10 :=
  c1_next_divisor_contract 100 7 (by decide) (by decide)

/-- Counterexample for C1 as frozen: the requested count `r = 0` satisfies
`r ≤ W` yet the code panics (`100 % 0` raises a divide-by-zero panic in Rust)
instead of returning an `Ok` value. -/
theorem c1_counterexample : next_divisor 100 0 = NdResult.panic := by decide

/-! ## Claim C2 -/

/-- Claim C2: for every image of size `W × H` and grid of `cols × rows`
cells with `cols ∣ W` and `rows ∣ H`, the cell rectangles of
`divide_image_into_grid` (row-major, `rows * cols` of them) all have width
`W / cols` and height `H / rows`, the cell at flat index `i` has its origin
at `((i % cols) * (W / cols), (i / cols) * (H / rows))` — the write origin
used by `Recreate::collage` — every image pixel lies in exactly one cell
rectangle, and distinct cell rectangles share no pixel. -/
theorem c2_grid_exact_tiling (W H cols rows : Nat) (hcols : 1 ≤ cols)
    (hrows : 1 ≤ rows) (hcW : cols ∣ W) (hrH : rows ∣ H) :
    (divide_image_into_grid W H cols rows).length = rows * cols ∧
    (∀ i, ∀ hi : i < (divide_image_into_grid W H cols rows).length,
      (divide_image_into_grid W H cols rows).get ⟨i, hi⟩ =
        ⟨(i % cols) * (W / cols), (i / cols) * (H / rows), W / cols, H / rows⟩) ∧
    (∀ px py, px < W → py < H →
      ∃! i, ∃ hi : i < (divide_image_into_grid W H cols rows).length,
        ((divide_image_into_grid W H cols rows).get ⟨i, hi⟩).contains px py) ∧
    (∀ i j, ∀ hi : i < (divide_image_into_grid W H cols rows).length,
      ∀ hj : j < (divide_image_into_grid W H cols rows).length, i ≠ j →
      ∀ px py, ¬(((divide_image_into_grid W H cols rows).get ⟨i, hi⟩).contains px py ∧
        ((divide_image_into_grid W H cols rows).get ⟨j, hj⟩).contains px py)) := by
  have hlen : (divide_image_into_grid W H cols rows).length = rows * cols := by
    rw [divide_image_into_grid_eq_map]
    simp
  have hget : ∀ i, ∀ hi : i < (divide_image_into_grid W H cols rows).length,
      (divide_image_into_grid W H cols rows).get ⟨i, hi⟩ =
        ⟨(i % cols) * (W / cols), (i / cols) * (H / rows), W / cols, H / rows⟩ := by
    intro i hi
    simp only [List.get_eq_getElem]
    simp only [divide_image_into_grid_eq_map, List.getElem_map, List.getElem_range]
  refine ⟨hlen, hget, ?_, ?_⟩
  · -- coverage with uniqueness
    intro px py hpx hpy
    have hW0 : 0 < W := by omega
    have hH0 : 0 < H := by omega
    have hcw : 0 < W / cols := Nat.div_pos (Nat.le_of_dvd hW0 hcW) (by omega)
    have hch : 0 < H / rows := Nat.div_pos (Nat.le_of_dvd hH0 hrH) (by omega)
    have hWeq : cols * (W / cols) = W := Nat.mul_div_cancel' hcW
    have hHeq : rows * (H / rows) = H := Nat.mul_div_cancel' hrH
    have hpxd : px / (W / cols) < cols := (Nat.div_lt_iff_lt_mul hcw).mpr (by omega)
    have hpyd : py / (H / rows) < rows := (Nat.div_lt_iff_lt_mul hch).mpr (by omega)
    have hmod : ((py / (H / rows)) * cols + px / (W / cols)) % cols = px / (W / cols) := by
      rw [Nat.mul_comm (py / (H / rows)) cols, Nat.mul_add_mod, Nat.mod_eq_of_lt hpxd]
    have hdiv : ((py / (H / rows)) * cols + px / (W / cols)) / cols = py / (H / rows) := by
      rw [Nat.mul_comm (py / (H / rows)) cols, Nat.mul_add_div (by omega),
        Nat.div_eq_of_lt hpxd, Nat.add_zero]
    have hi0 : (py / (H / rows)) * cols + px / (W / cols) <
        (divide_image_into_grid W H cols rows).length := by
      rw [hlen]
      have h1 : (py / (H / rows) + 1) * cols ≤ rows * cols :=
        Nat.mul_le_mul_right cols (by omega)
      have h2 : (py / (H / rows) + 1) * cols = (py / (H / rows)) * cols + cols := by
        rw [Nat.succ_mul]
      omega
    refine ⟨(py / (H / rows)) * cols + px / (W / cols), ⟨hi0, ?_⟩, ?_⟩
    · rw [hget _ hi0]
      unfold CellRect.contains
      simp only [hmod, hdiv]
      have h1 := (between_iff_div_eq (px / (W / cols)) (W / cols) px hcw).mpr rfl
      have h2 := (between_iff_div_eq (py / (H / rows)) (H / rows) py hch).mpr rfl
      exact ⟨h1.1, h1.2, h2.1, h2.2⟩
    · rintro j ⟨hj, hcont⟩
      rw [hget _ hj] at hcont
      unfold CellRect.contains at hcont
      dsimp only at hcont
      obtain ⟨ha1, ha2, hb1, hb2⟩ := hcont
      have hjx : px / (W / cols) = j % cols := div_eq_of_between' _ _ _ ha1 ha2
      have hjy : py / (H / rows) = j / cols := div_eq_of_between' _ _ _ hb1 hb2
      rw [hjy, hjx, Nat.mul_comm]
      exact (Nat.div_add_mod j cols).symm
  · -- pairwise disjointness
    intro i j hi hj hne px py hcont
    obtain ⟨hci, hcj⟩ := hcont
    rw [hget _ hi] at hci
    rw [hget _ hj] at hcj
    unfold CellRect.contains at hci hcj
    dsimp only at hci hcj
    obtain ⟨hia1, hia2, hib1, hib2⟩ := hci
    obtain ⟨hja1, hja2, hjb1, hjb2⟩ := hcj
    have hix : px / (W / cols) = i % cols := div_eq_of_between' _ _ _ hia1 hia2
    have hjx : px / (W / cols) = j % cols := div_eq_of_between' _ _ _ hja1 hja2
    have hiy : py / (H / rows) = i / cols := div_eq_of_between' _ _ _ hib1 hib2
    have hjy : py / (H / rows) = j / cols := div_eq_of_between' _ _ _ hjb1 hjb2
    have hm : i % cols = j % cols := by rw [← hix, hjx]
    have hdv : i / cols = j / cols := by rw [← hiy, hjy]
    have h1 := Nat.div_add_mod i cols
    have h2 := Nat.div_add_mod j cols
    rw [hdv, hm] at h1
    exact hne (h1.symm.trans h2)

/-- Witness for C2 at a `4 × 6` image with a `2 × 3` grid. -/
theorem c2_witness :
    (divide_image_into_grid 4 6 2 3).length = 3 * 2 ∧
    (∀ i, ∀ hi : i < (divide_image_into_grid 4 6 2 3).length,
      (divide_image_into_grid 4 6 2 3).get ⟨i, hi⟩ =
        ⟨(i % 2) * (4 / 2), (i / 2) * (6 / 3), 4 / 2, 6 / 3⟩) ∧
    (∀ px py, px < 4 → py < 6 →
      ∃! i, ∃ hi : i < (divide_image_into_grid 4 6 2 3).length,
        ((divide_image_into_grid 4 6 2 3).get ⟨i, hi⟩).contains px py) ∧
    (∀ i j, ∀ hi : i < (divide_image_into_grid 4 6 2 3).length,
      ∀ hj : j < (divide_image_into_grid 4 6 2 3).length, i ≠ j →
      ∀ px py, ¬(((divide_image_into_grid 4 6 2 3).get ⟨i, hi⟩).contains px py ∧
        ((divide_image_into_grid 4 6 2 3).get ⟨j, hj⟩).contains px py)) :=
  c2_grid_exact_tiling 4 6 2 3 (by decide) (by decide) (by decide) (by decide)

/-! ## Claims C4 and C5 -/

theorem scaleChannel_zero (c : Nat) : scaleChannel c 0 = 0 := by
  unfold scaleChannel
  norm_num

theorem scaleChannel_one (c : Nat) (hc : c ≤ 255) : scaleChannel c 1 = c := by
  unfold scaleChannel
  rw [mul_one, min_eq_left (by exact_mod_cast hc), max_eq_left (by positivity),
    Int.floor_natCast]
  exact Int.toNat_natCast c

/-- A clamped channel of `lab_to_rgba_u8` fits in 8 bits. -/
theorem floor_toNat_le_255 (v : Rat) : (⌊min (max v 0) 255⌋).toNat ≤ 255 := by
  have h1 : min (max v 0) 255 ≤ (255 : Rat) := min_le_right _ _
  have h2 : ⌊min (max v 0) 255⌋ ≤ ⌊(255 : Rat)⌋ := Int.floor_le_floor h1
  have h3 : (⌊(255 : Rat)⌋ : Int) = 255 := by norm_num
  omega

theorem half_nonneg_rat : (0 : Rat) ≤ 1 / 2 := by norm_num

theorem half_le_one_rat : (1 : Rat) / 2 ≤ 1 := by norm_num

/-- Claim C4 (amended): for every valid candidate pixel `p` and every
dominant colour actually produced by `lab_to_rgba_u8` (whose alpha channel is
always 255), blending with global factor 1 returns the dominant colour
exactly; blending with factor 0 returns a pixel with `p`'s R, G, B channels
but with alpha channel 255 — because `impl Add for RgbaWrapper` saturating-
adds the alpha channels (`min (p.a + 255) 255 = 255`) — so the factor-0 blend
equals `p` exactly iff `p`'s alpha channel is already 255. -/
theorem c4_blend_endpoints (p : RgbaU8) (hp : p.valid)
    (srgbOfLab : LabColor → Rat × Rat × Rat) (lab : LabColor) :
    blend p (lab_to_rgba_u8 srgbOfLab lab) 1 = lab_to_rgba_u8 srgbOfLab lab ∧
    blend p (lab_to_rgba_u8 srgbOfLab lab) 0 = RgbaU8.mk p.r p.g p.b 255 ∧
    (blend p (lab_to_rgba_u8 srgbOfLab lab) 0 = p ↔ p.a = 255) := by
  obtain ⟨r, g, b, a⟩ := p
  unfold RgbaU8.valid at hp
  dsimp only at hp
  obtain ⟨hr, hg, hb, ha⟩ := hp
  have hA := floor_toNat_le_255 ((srgbOfLab lab).1 * 255)
  have hB := floor_toNat_le_255 ((srgbOfLab lab).2.1 * 255)
  have hC := floor_toNat_le_255 ((srgbOfLab lab).2.2 * 255)
  have h0 : blend ⟨r, g, b, a⟩ (lab_to_rgba_u8 srgbOfLab lab) 0 =
      RgbaU8.mk r g b 255 := by
    simp only [blend, rgbaMul, rgbaAdd, addChannel, lab_to_rgba_u8, sub_zero]
    rw [scaleChannel_one r hr, scaleChannel_one g hg, scaleChannel_one b hb]
    simp only [scaleChannel_zero]
    congr 1 <;> omega
  refine ⟨?_, h0, ?_⟩
  · simp only [blend, rgbaMul, rgbaAdd, addChannel, lab_to_rgba_u8, sub_self]
    simp only [scaleChannel_zero]
    rw [scaleChannel_one _ hA, scaleChannel_one _ hB, scaleChannel_one _ hC]
    congr 1 <;> omega
  · rw [h0]
    simp only [RgbaU8.mk.injEq, true_and]
    omega

/-- Witness for C4 at `p = (1, 2, 3, 4)` and the dominant colour obtained
from the constant-zero sRGB conversion. -/
theorem c4_witness :
    blend ⟨1, 2, 3, 4⟩ (lab_to_rgba_u8 (fun _ => (0, 0, 0)) ⟨0, 0, 0⟩) 1 =
        lab_to_rgba_u8 (fun _ => (0, 0, 0)) ⟨0, 0, 0⟩ ∧
    blend ⟨1, 2, 3, 4⟩ (lab_to_rgba_u8 (fun _ => (0, 0, 0)) ⟨0, 0, 0⟩) 0 =
        RgbaU8.mk 1 2 3 255 ∧
    (blend ⟨1, 2, 3, 4⟩ (lab_to_rgba_u8 (fun _ => (0, 0, 0)) ⟨0, 0, 0⟩) 0 =
        ⟨1, 2, 3, 4⟩ ↔ (4 : Nat) = 255) :=
  c4_blend_endpoints ⟨1, 2, 3, 4⟩ (by decide) (fun _ => (0, 0, 0)) ⟨0, 0, 0⟩

/-- Counterexample for C4 as frozen: blending the candidate pixel
`(10, 20, 30, 100)` with a dominant colour at factor 0 does not return the
candidate pixel — the output alpha channel is 255, not 100. -/
theorem c4_counterexample :
    blend ⟨10, 20, 30, 100⟩ (lab_to_rgba_u8 (fun _ => (0, 0, 0)) ⟨0, 0, 0⟩) 0 ≠
      ⟨10, 20, 30, 100⟩ := by
  have hd : lab_to_rgba_u8 (fun _ => ((0 : Rat), (0 : Rat), (0 : Rat))) ⟨0, 0, 0⟩ =
      ⟨0, 0, 0, 255⟩ := by
    unfold lab_to_rgba_u8
    norm_num
  rw [hd]
  have hb : blend ⟨10, 20, 30, 100⟩ ⟨0, 0, 0, 255⟩ 0 = ⟨10, 20, 30, 255⟩ := by
    simp only [blend, rgbaMul, rgbaAdd, addChannel, sub_zero, scaleChannel_zero]
    rw [scaleChannel_one 10 (by omega), scaleChannel_one 20 (by omega),
      scaleChannel_one 30 (by omega)]
    decide
  rw [hb]
  simp

/-- Claim C5 (amended): for every candidate pixel `p`, dominant colour `d`
and global blend factor in `[0, 1]`, each output R, G, B channel of the
blend is a function of the corresponding input channels alone
(`blendChannel`) — the channels are processed independently — but the output
alpha channel is `min (p.a + d.a) 255`, the saturating sum of the two alpha
channels, not the candidate's alpha: for any dominant colour produced by
`lab_to_rgba_u8` (alpha 255) the output alpha channel is always 255. -/
theorem c5_blend_alpha_channel (p d : RgbaU8) (alpha : Rat)
    (h0 : 0 ≤ alpha) (h1 : alpha ≤ 1) :
    blend p d alpha = ⟨blendChannel p.r d.r alpha, blendChannel p.g d.g alpha,
      blendChannel p.b d.b alpha, min (p.a + d.a) 255⟩ ∧
    ∀ (srgbOfLab : LabColor → Rat × Rat × Rat) (lab : LabColor),
      (blend p (lab_to_rgba_u8 srgbOfLab lab) alpha).a = 255 := by
  constructor
  · rfl
  · intro srgbOfLab lab
    simp only [blend, rgbaMul, rgbaAdd, addChannel, lab_to_rgba_u8]
    omega

/-- Witness for C5 at `p = (1, 2, 3, 4)`, `d = (5, 6, 7, 8)`,
`alpha = 1/2`. -/
theorem c5_witness :
    blend ⟨1, 2, 3, 4⟩ ⟨5, 6, 7, 8⟩ (1 / 2) =
      ⟨blendChannel 1 5 (1 / 2), blendChannel 2 6 (1 / 2),
        blendChannel 3 7 (1 / 2), min (4 + 8) 255⟩ ∧
    ∀ (srgbOfLab : LabColor → Rat × Rat × Rat) (lab : LabColor),
      (blend ⟨1, 2, 3, 4⟩ (lab_to_rgba_u8 srgbOfLab lab) (1 / 2)).a = 255 :=
  c5_blend_alpha_channel ⟨1, 2, 3, 4⟩ ⟨5, 6, 7, 8⟩ (1 / 2)
    half_nonneg_rat half_le_one_rat

/-- Counterexample for C5 as frozen: at blend factor `1/2 ∈ [0, 1]` the
output alpha channel is not the candidate pixel's alpha channel 7 (it is
`min (7 + 255) 255 = 255`). -/
theorem c5_counterexample :
    (blend ⟨5, 5, 5, 7⟩ ⟨9, 9, 9, 255⟩ (1 / 2)).a ≠ 7 := by
  simp only [blend, rgbaMul, rgbaAdd, addChannel]
  omega

/-! ## Claim C6 -/

theorem zero_lt_f32Max : (0 : Rat) < f32Max := by norm_num [f32Max]

theorem one_lt_f32Max : (1 : Rat) < f32Max := by norm_num [f32Max]

/-- Claim C6: `calc_dominant_color` runs k-means three times with the
deterministic seeds 30, 31, 32 (`getk 30`, `getk 31`, `getk 32` below) and
keeps the run with the lowest score; whenever every run's score is below
`f32::MAX` — as every finite `f32` clustering score is — the first run
replaces the `Kmeans::new()` placeholder (first conjunct), and the selected
result is one of the three actual runs, has a score below the placeholder's,
and scores no higher than any of the three runs. -/
theorem c6_best_of_three (getk : Nat → KmeansState)
    (hfin : ∀ i, i < 3 → (getk (30 + i)).score < f32Max) :
    ((if (getk 30).score < kmeansNew.score then getk 30 else kmeansNew) = getk 30) ∧
    (bestOfRuns getk = getk 30 ∨ bestOfRuns getk = getk 31 ∨
      bestOfRuns getk = getk 32) ∧
    (bestOfRuns getk).score < f32Max ∧
    (bestOfRuns getk).score ≤ (getk 30).score ∧
    (bestOfRuns getk).score ≤ (getk 31).score ∧
    (bestOfRuns getk).score ≤ (getk 32).score := by
  have h30 : (getk 30).score < f32Max := hfin 0 (by omega)
  have h31 : (getk 31).score < f32Max := hfin 1 (by omega)
  have h32 : (getk 32).score < f32Max := hfin 2 (by omega)
  have hstep0 : (if (getk 30).score < kmeansNew.score then getk 30 else kmeansNew) =
      getk 30 := if_pos h30
  have hunfold : bestOfRuns getk =
      (if (getk 32).score <
          (if (getk 31).score <
              (if (getk 30).score < kmeansNew.score then getk 30 else kmeansNew).score
            then getk 31
            else if (getk 30).score < kmeansNew.score then getk 30 else kmeansNew).score
        then getk 32
        else if (getk 31).score <
              (if (getk 30).score < kmeansNew.score then getk 30 else kmeansNew).score
            then getk 31
            else if (getk 30).score < kmeansNew.score then getk 30 else kmeansNew) := rfl
  rw [hstep0] at hunfold
  refine ⟨hstep0, ?_⟩
  by_cases c1 : (getk 31).score < (getk 30).score
  · rw [if_pos c1] at hunfold
    by_cases c2 : (getk 32).score < (getk 31).score
    · rw [if_pos c2] at hunfold
      rw [hunfold]
      exact ⟨Or.inr (Or.inr rfl), h32, le_of_lt (c2.trans c1), le_of_lt c2, le_refl _⟩
    · rw [if_neg c2] at hunfold
      rw [hunfold]
      exact ⟨Or.inr (Or.inl rfl), h31, le_of_lt c1, le_refl _, not_lt.mp c2⟩
  · rw [if_neg c1] at hunfold
    by_cases c3 : (getk 32).score < (getk 30).score
    · rw [if_pos c3] at hunfold
      rw [hunfold]
      exact ⟨Or.inr (Or.inr rfl), h32, le_of_lt c3,
        le_of_lt (lt_of_lt_of_le c3 (not_lt.mp c1)), le_refl _⟩
    · rw [if_neg c3] at hunfold
      rw [hunfold]
      exact ⟨Or.inl rfl, h30, le_refl _, not_lt.mp c1, not_lt.mp c3⟩

/-- Witness for C6 with three identical zero-score runs. -/
theorem c6_witness :
    ((if (KmeansState.mk 0 [] []).score < kmeansNew.score
        then KmeansState.mk 0 [] [] else kmeansNew) = KmeansState.mk 0 [] []) ∧
    (bestOfRuns (fun _ => KmeansState.mk 0 [] []) = KmeansState.mk 0 [] [] ∨
      bestOfRuns (fun _ => KmeansState.mk 0 [] []) = KmeansState.mk 0 [] [] ∨
      bestOfRuns (fun _ => KmeansState.mk 0 [] []) = KmeansState.mk 0 [] []) ∧
    (bestOfRuns (fun _ => KmeansState.mk 0 [] [])).score < f32Max ∧
    (bestOfRuns (fun _ => KmeansState.mk 0 [] [])).score ≤
      (KmeansState.mk 0 [] []).score ∧
    (bestOfRuns (fun _ => KmeansState.mk 0 [] [])).score ≤
      (KmeansState.mk 0 [] []).score ∧
    (bestOfRuns (fun _ => KmeansState.mk 0 [] [])).score ≤
      (KmeansState.mk 0 [] []).score :=
  c6_best_of_three (fun _ => KmeansState.mk 0 [] []) (fun _ _ => zero_lt_f32Max)

/-! ## Claim C8 -/

/-- The selection loop keeps a constant run (its score beats the
placeholder, and a run never beats its own score). -/
theorem bestOfRuns_const (k : KmeansState) (hk : k.score < f32Max) :
    bestOfRuns (fun _ => k) = k := by
  have hunfold : bestOfRuns (fun _ => k) =
      (if k.score <
          (if k.score < (if k.score < kmeansNew.score then k else kmeansNew).score
            then k
            else if k.score < kmeansNew.score then k else kmeansNew).score
        then k
        else if k.score < (if k.score < kmeansNew.score then k else kmeansNew).score
            then k
            else if k.score < kmeansNew.score then k else kmeansNew) := rfl
  have hk2 : k.score < kmeansNew.score := hk
  rw [if_pos hk2] at hunfold
  rw [if_neg (lt_irrefl k.score)] at hunfold
  rw [if_neg (lt_irrefl k.score)] at hunfold
  exact hunfold

/-- Claim C8 (amended): when the selected clustering result has no
centroids, `calc_dominant_color` panics through `Option::unwrap` on the
`None` returned by `get_dominant_color` — the code has no `EmptyClusterResult`
error value and no error return at all; the Rust panic unwinds out of the
cell worker and aborts the whole mosaic run. -/
theorem c8_empty_cluster_panics (getk : Nat → KmeansState)
    (h : (bestOfRuns getk).centroids = []) :
    calc_dominant_color getk = Outcome.panic PanicReason.dominantUnwrapNone := by
  simp only [calc_dominant_color]
  rw [h]
  simp [sort_indexed_colors, get_dominant_color]

/-- Witness for C8: three runs that beat the placeholder but produce no
centroids. -/
theorem c8_witness :
    calc_dominant_color (fun _ => KmeansState.mk 1 [] []) =
      Outcome.panic PanicReason.dominantUnwrapNone :=
  c8_empty_cluster_panics (fun _ => KmeansState.mk 1 [] [])
    (by rw [bestOfRuns_const (KmeansState.mk 1 [] []) one_lt_f32Max])

/-- Counterexample for C8 as frozen: on a clustering outcome with no
centroids, `calc_dominant_color` produces a panic — not an
`EmptyClusterResult` error value (no error constructor is ever produced by
this function). -/
theorem c8_counterexample :
    calc_dominant_color (fun _ => KmeansState.mk 0 [] []) =
      Outcome.panic PanicReason.dominantUnwrapNone := by
  simp only [calc_dominant_color]
  rw [bestOfRuns_const (KmeansState.mk 0 [] []) zero_lt_f32Max]
  simp [sort_indexed_colors, get_dominant_color]

/-! ## Claims C3, C9 and C10 -/

theorem processCell_empty_pool (inp : CollageInput) (hpool : inp.poolLen = 0) :
    processCell inp = Outcome.panic PanicReason.genRangeEmptyRange := by
  simp [processCell, hpool]

theorem processCell_not_rgb8 (inp : CollageInput) (hpool : ¬ inp.poolLen = 0)
    (hrgb : inp.refIsRgb8 = false) :
    processCell inp = Outcome.panic PanicReason.asRgb8UnwrapNone := by
  simp [processCell, hpool, hrgb]

theorem processCell_ok (inp : CollageInput) (hpool : ¬ inp.poolLen = 0)
    (hrgb : inp.refIsRgb8 = true) (c : LabColor)
    (hdom : calc_dominant_color inp.getk = Outcome.ok c) :
    processCell inp = Outcome.ok () := by
  simp [processCell, hpool, hrgb, hdom]

theorem processCells_panic (inp : CollageInput) (reason : PanicReason)
    (h : processCell inp = Outcome.panic reason) :
    ∀ cells : List CellRect, cells ≠ [] →
      processCells cells inp = Outcome.panic reason := by
  intro cells hne
  cases cells with
  | nil => exact absurd rfl hne
  | cons c rest => simp [processCells, h]

theorem processCells_all_ok (inp : CollageInput)
    (h : processCell inp = Outcome.ok ()) :
    ∀ cells : List CellRect, processCells cells inp = Outcome.ok () := by
  intro cells
  induction cells with
  | nil => rfl
  | cons c rest ih => simp [processCells, h, ih]

theorem divide_image_into_grid_ne_nil (W H cols rows : Nat)
    (hc : 1 ≤ cols) (hr : 1 ≤ rows) :
    divide_image_into_grid W H cols rows ≠ [] := by
  have hlen : (divide_image_into_grid W H cols rows).length = rows * cols := by
    rw [divide_image_into_grid_eq_map]
    simp
  intro hnil
  rw [hnil] at hlen
  have hpos : 0 < rows * cols := Nat.mul_pos (by omega) (by omega)
  simp at hlen
  omega

/-- `collage` after both grid negotiations succeed. -/
theorem collage_eq_of_ok (inp : CollageInput) (cols rows : Nat)
    (hcols : next_divisor inp.imgW inp.gridCols = NdResult.ok cols)
    (hrows : next_divisor inp.imgH inp.gridRows = NdResult.ok rows) :
    collage inp =
      match processCells (divide_image_into_grid inp.imgW inp.imgH cols rows) inp with
      | .ok _ => if 2 ≤ inp.pathParts.length then Outcome.ok ()
                 else Outcome.panic PanicReason.pathIndexUnderflow
      | .err e => Outcome.err e
      | .panic reason => Outcome.panic reason := by
  unfold collage
  rw [hcols, hrows]

/-- Claim C3 (amended): with an empty candidate pool and an otherwise valid
grid request, `collage` panics with rand's empty-range panic raised by
`rng.gen_range(0..0)` inside the first per-cell worker — there is no
emptiness check before the fan-out and no `EmptyCandidatePool` error value
in the code; the panic is raised before any pixel of that cell is
written. -/
theorem c3_empty_pool (inp : CollageInput) (hpool : inp.poolLen = 0)
    (hc1 : 1 ≤ inp.gridCols) (hc2 : inp.gridCols ≤ inp.imgW)
    (hr1 : 1 ≤ inp.gridRows) (hr2 : inp.gridRows ≤ inp.imgH) :
    collage inp = Outcome.panic PanicReason.genRangeEmptyRange := by
  obtain ⟨cols, hcols, hcge, _, _, _⟩ := next_divisor_spec inp.imgW inp.gridCols hc1 hc2
  obtain ⟨rows, hrows, hrge, _, _, _⟩ := next_divisor_spec inp.imgH inp.gridRows hr1 hr2
  rw [collage_eq_of_ok inp cols rows hcols hrows]
  rw [processCells_panic inp _ (processCell_empty_pool inp hpool) _
    (divide_image_into_grid_ne_nil _ _ cols rows (by omega) (by omega))]

/-- Witness for C3: an empty pool on a 4×4 image with a 2×2 grid request. -/
theorem c3_witness :
    collage ⟨["imgs", "ref.png"], 4, 4, 2, 2, 0, true, fun _ => kmeansNew⟩ =
      Outcome.panic PanicReason.genRangeEmptyRange :=
  c3_empty_pool _ rfl (by decide) (by decide) (by decide) (by decide)

/-- Counterexample for C3 as frozen: on a concrete empty-pool input the
outcome of `collage` is the per-cell `gen_range` panic, not an error raised
before cell work begins (the model has no `EmptyCandidatePool` error at
all, matching the source). -/
theorem c3_counterexample :
    collage ⟨["imgs", "ref.png"], 1, 1, 1, 1, 0, true, fun _ => kmeansNew⟩ =
      Outcome.panic PanicReason.genRangeEmptyRange := by
  rw [collage_eq_of_ok _ 1 1 (by decide) (by decide)]
  rw [processCells_panic _ _ (processCell_empty_pool _ rfl) _ (by decide)]

/-- Claim C9: with a non-empty pool and a valid grid request, a reference
image whose decoded format is not `Rgb8` makes the per-cell dominant-colour
step panic on `portion.as_rgb8().unwrap()`; and `collage` completes only
when the reference is the `Rgb8` variant. -/
theorem c9_rgb8_precondition (inp : CollageInput)
    (hc1 : 1 ≤ inp.gridCols) (hc2 : inp.gridCols ≤ inp.imgW)
    (hr1 : 1 ≤ inp.gridRows) (hr2 : inp.gridRows ≤ inp.imgH)
    (hpool : 1 ≤ inp.poolLen) :
    (inp.refIsRgb8 = false →
      collage inp = Outcome.panic PanicReason.asRgb8UnwrapNone) ∧
    (collage inp = Outcome.ok () → inp.refIsRgb8 = true) := by
  obtain ⟨cols, hcols, hcge, _, _, _⟩ := next_divisor_spec inp.imgW inp.gridCols hc1 hc2
  obtain ⟨rows, hrows, hrge, _, _, _⟩ := next_divisor_spec inp.imgH inp.gridRows hr1 hr2
  have hpanic : inp.refIsRgb8 = false →
      collage inp = Outcome.panic PanicReason.asRgb8UnwrapNone := by
    intro hrgb
    rw [collage_eq_of_ok inp cols rows hcols hrows]
    rw [processCells_panic inp _ (processCell_not_rgb8 inp (by omega) hrgb) _
      (divide_image_into_grid_ne_nil _ _ cols rows (by omega) (by omega))]
  refine ⟨hpanic, ?_⟩
  intro hok
  cases hbool : inp.refIsRgb8 with
  | true => rfl
  | false =>
    rw [hpanic hbool] at hok
    exact absurd hok (by simp)

/-- Witness for C9: a non-`Rgb8` reference with one pool image. -/
theorem c9_witness :
    ((false : Bool) = false →
      collage ⟨["imgs", "ref.png"], 4, 4, 2, 2, 1, false, fun _ => kmeansNew⟩ =
        Outcome.panic PanicReason.asRgb8UnwrapNone) ∧
    (collage ⟨["imgs", "ref.png"], 4, 4, 2, 2, 1, false, fun _ => kmeansNew⟩ =
        Outcome.ok () → (false : Bool) = true) :=
  c9_rgb8_precondition ⟨["imgs", "ref.png"], 4, 4, 2, 2, 1, false, fun _ => kmeansNew⟩
    (by decide) (by decide) (by decide) (by decide) (by decide)

/-- Claim C10: when the reference path splits into fewer than two `/`
components, `collage` finishes all the per-cell work (second conjunct) and
then panics computing `split_path[split_path.len() - 2]` — the index
subtraction underflows — so the completed mosaic is lost before
`output.png` is written. -/
theorem c10_path_underflow (inp : CollageInput)
    (hpath : inp.pathParts.length < 2)
    (hc1 : 1 ≤ inp.gridCols) (hc2 : inp.gridCols ≤ inp.imgW)
    (hr1 : 1 ≤ inp.gridRows) (hr2 : inp.gridRows ≤ inp.imgH)
    (hpool : 1 ≤ inp.poolLen) (hrgb : inp.refIsRgb8 = true)
    (hdom : ∃ c, calc_dominant_color inp.getk = Outcome.ok c) :
    collage inp = Outcome.panic PanicReason.pathIndexUnderflow ∧
    ∀ cols rows : Nat,
      processCells (divide_image_into_grid inp.imgW inp.imgH cols rows) inp =
        Outcome.ok () := by
  obtain ⟨c, hc⟩ := hdom
  have hcell : processCell inp = Outcome.ok () :=
    processCell_ok inp (by omega) hrgb c hc
  constructor
  · obtain ⟨cols, hcols, _, _, _, _⟩ := next_divisor_spec inp.imgW inp.gridCols hc1 hc2
    obtain ⟨rows, hrows, _, _, _, _⟩ := next_divisor_spec inp.imgH inp.gridRows hr1 hr2
    rw [collage_eq_of_ok inp cols rows hcols hrows]
    rw [processCells_all_ok inp hcell _]
    show (if 2 ≤ inp.pathParts.length then Outcome.ok ()
      else Outcome.panic PanicReason.pathIndexUnderflow) =
        Outcome.panic PanicReason.pathIndexUnderflow
    rw [if_neg (by omega)]
  · intro cols rows
    exact processCells_all_ok inp hcell _

/-- Witness for C10: a bare one-component filename. -/
theorem c10_witness :
    collage ⟨["photo.png"], 4, 4, 2, 2, 1, true,
        fun _ => KmeansState.mk 1 [LabColor.mk 0 0 0] [0]⟩ =
      Outcome.panic PanicReason.pathIndexUnderflow ∧
    ∀ cols rows : Nat,
      processCells (divide_image_into_grid 4 4 cols rows)
        ⟨["photo.png"], 4, 4, 2, 2, 1, true,
          fun _ => KmeansState.mk 1 [LabColor.mk 0 0 0] [0]⟩ =
        Outcome.ok () :=
  c10_path_underflow
    ⟨["photo.png"], 4, 4, 2, 2, 1, true,
      fun _ => KmeansState.mk 1 [LabColor.mk 0 0 0] [0]⟩
    (by decide) (by decide) (by decide) (by decide) (by decide) (by decide) rfl
    ⟨LabColor.mk 0 0 0, by
      simp only [calc_dominant_color]
      rw [bestOfRuns_const (KmeansState.mk 1 [LabColor.mk 0 0 0] [0]) one_lt_f32Max]
      rfl⟩

end Recreate
